import Mathlib

/-!
Verification of the dynamic-schema flattening engine of `apple-health-tools`.

The development shallowly embeds the two extractor scripts:
  * `src/extract/gpx_routes.py`   — materialize-then-flatten driver over GPX files
    (`parse_gpx_file`, `process_gpx_files`, pandas `DataFrame` column inference);
  * `src/extract/health_records.py` — two-pass streaming driver over health records
    (`HealthDataExporter._get_metadata_keys`, `export_record_type`, `csv.DictWriter`).

Python strings are Lean `String`s; Python dicts (insertion-ordered, assignment
overwrites in place) are association lists with an explicit `dinsert`; Python
exceptions are `Except PyErr`; Python floats are represented by the source text
they were parsed from (`PyVal.pFloat s`), which is enough because no claim
compares floats obtained from distinct texts.
-/

/-! ## Definitions -/

/-! ### Lexicographic string order

Python compares strings lexicographically by code point.  The library order on
`String` does not reduce in the kernel, so we define an executable lexicographic
comparison on the underlying character lists and use it throughout.
-/

/-- Lexicographic less-or-equal on character lists, by code point. -/
def lexLeB : List Char → List Char → Bool
  | [], _ => true
  | _ :: _, [] => false
  | a :: as, b :: bs => if a < b then true else if b < a then false else lexLeB as bs

/-- Lexicographic order on strings, as Python compares them. -/
def strLe (a b : String) : Prop := lexLeB a.data b.data = true

instance : DecidableRel strLe := fun a b => by
  unfold strLe; infer_instance

instance : IsTrans String strLe where
  trans a b c h1 h2 := by
    have key : ∀ as bs cs : List Char,
        lexLeB as bs = true → lexLeB bs cs = true → lexLeB as cs = true := by
      intro as
      induction as with
      | nil => intro bs cs _ _; rfl
      | cons a as ih =>
        intro bs cs h1 h2
        cases bs with
        | nil => simp [lexLeB] at h1
        | cons b bs =>
          cases cs with
          | nil => simp [lexLeB] at h2
          | cons c cs =>
            simp only [lexLeB] at h1 h2 ⊢
            rcases lt_trichotomy a b with hab | hab | hab
            · rcases lt_trichotomy b c with hbc | hbc | hbc
              · simp [lt_trans hab hbc]
              · subst hbc; simp [hab]
              · simp [hbc, not_lt_of_lt hbc] at h2
            · subst hab
              rcases lt_trichotomy a c with hac | hac | hac
              · simp [hac]
              · subst hac
                simp [lt_irrefl] at h1 h2 ⊢
                exact ih _ _ h1 h2
              · simp [hac, not_lt_of_lt hac] at h2
            · simp [hab, not_lt_of_lt hab] at h1
    exact key a.data b.data c.data h1 h2

instance : IsAntisymm String strLe where
  antisymm a b h1 h2 := by
    have key : ∀ as bs : List Char,
        lexLeB as bs = true → lexLeB bs as = true → as = bs := by
      intro as
      induction as with
      | nil =>
        intro bs _ h2
        cases bs with
        | nil => rfl
        | cons b bs => simp [lexLeB] at h2
      | cons a as ih =>
        intro bs h1 h2
        cases bs with
        | nil => simp [lexLeB] at h1
        | cons b bs =>
          simp only [lexLeB] at h1 h2
          rcases lt_trichotomy a b with hab | hab | hab
          · simp [hab, not_lt_of_lt hab] at h2
          · subst hab
            simp [lt_irrefl] at h1 h2
            rw [ih _ h1 h2]
          · simp [hab, not_lt_of_lt hab] at h1
    exact String.ext (key a.data b.data h1 h2)

instance : IsTotal String strLe where
  total a b := by
    have key : ∀ as bs : List Char, lexLeB as bs = true ∨ lexLeB bs as = true := by
      intro as
      induction as with
      | nil => intro bs; left; rfl
      | cons a as ih =>
        intro bs
        cases bs with
        | nil => right; rfl
        | cons b bs =>
          simp only [lexLeB]
          rcases lt_trichotomy a b with hab | hab | hab
          · left; simp [hab]
          · subst hab
            simp [lt_irrefl]
            exact ih bs
          · right; simp [hab]
    exact key a.data b.data

/-- Model of Python `sorted` on a collection of strings. -/
def pySorted (l : List String) : List String := List.insertionSort strLe l

/-! ### First-appearance accumulation

`addNew acc ks` appends to `acc` the elements of `ks` not already present, in
order of first appearance.  It models both the pandas `DataFrame` column union
(first-appearance ordered) and, as a deduplicating accumulator, the Python
`set.update` calls of `_get_metadata_keys` (whose iteration order is erased by
the subsequent `sorted`).
-/

def addNew (acc : List String) (ks : List String) : List String :=
  ks.foldl (fun a k => if k ∈ a then a else a ++ [k]) acc

/-! ### Python dicts as association lists

A Python dict preserves insertion order; assigning to an existing key replaces
its value in place, assigning a fresh key appends it.  `List.lookup` is dict
indexing (a missing key is `none`).
-/

/-- Python dict assignment `d[k] = v`. -/
def dinsert {V : Type} (d : List (String × V)) (k : String) (v : V) :
    List (String × V) :=
  match d with
  | [] => [(k, v)]
  | p :: t => if p.1 = k then (p.1, v) :: t else p :: dinsert t k v

/-- Keys of a dict, in order. -/
def dkeys {V : Type} (d : List (String × V)) : List String := d.map Prod.fst

/-- Sequential dict assignment of a list of key/value pairs. -/
def dinsertList {V : Type} (d : List (String × V)) (l : List (String × V)) :
    List (String × V) :=
  l.foldl (fun d p => dinsert d p.1 p.2) d

/-! ### Python value and exception model -/

deriving instance DecidableEq for Except

/-- Exceptions that the embedded code can raise. -/
inductive PyErr : Type where
  | valueError : PyErr
  | typeError : PyErr
  | attributeError : PyErr
  | fileNotFound : PyErr
deriving DecidableEq

/-- Cell values of the GPX pipeline.  A float (or a parsed timestamp) is
identified by the source text it was parsed from; no claim compares values
obtained from distinct texts.  `pNone` is the null marker (`None`, and the
`NaN`/`NaT` cells pandas renders as empty fields). -/
inductive PyVal : Type where
  | pNone : PyVal
  | pStr : String → PyVal
  | pFloat : String → PyVal
  | pTimestamp : String → PyVal
deriving DecidableEq

/-- ASCII decimal digit test.  The values handled by the claims are ASCII;
Python `str.isdigit` additionally accepts some non-ASCII digit characters. -/
def isAsciiDigit (c : Char) : Bool := decide ('0' ≤ c ∧ c ≤ '9')

/-- Model of Python `s.isdigit()`: nonempty and all digits. -/
def pyIsdigit (s : String) : Bool := !s.data.isEmpty && s.data.all isAsciiDigit

/-- Model of Python `s.replace('.', '')`: removes every decimal point. -/
def stripDots (s : String) : String := ⟨s.data.filter (fun c => c ≠ '.')⟩

/-- Number of decimal points in a string. -/
def dotCount (s : String) : Nat := s.data.count '.'

/-- Model of Python `float(s)` acceptance, restricted to the simple decimal
forms arising here: an optional sign, then at least one digit and at most one
decimal point (exponents, `inf`/`nan` and surrounding whitespace are outside
the inputs the claims quantify over). -/
def validFloat (s : String) : Bool :=
  let t : List Char :=
    match s.data with
    | [] => []
    | c :: rest => if c = '+' ∨ c = '-' then rest else c :: rest
  t.any isAsciiDigit && t.all (fun c => isAsciiDigit c || c = '.') &&
    decide (t.count '.' ≤ 1)

/-- Python `float(x)` on an optional string: `float(None)` raises `TypeError`,
an unparsable string raises `ValueError`. -/
def pyFloat (o : Option String) : Except PyErr PyVal :=
  match o with
  | none => Except.error PyErr.typeError
  | some s => if validFloat s then Except.ok (PyVal.pFloat s) else Except.error PyErr.valueError

/-! ### GPX pipeline (`src/extract/gpx_routes.py`) -/

/-- One `trkpt` element: `lat`/`lon` attributes, optional `ele`/`time` child
text, and the children of the optional `extensions` element (tag, text).  An
empty XML element has `None` text, hence `Option String`. -/
structure Trkpt : Type where
  lat : Option String
  lon : Option String
  ele : Option String
  time : Option String
  exts : List (String × Option String)
deriving DecidableEq

/-- Model of `ext.tag.split('}')[-1]`: the suffix after the last closing brace
(the whole tag when there is none). -/
def cleanTag (t : String) : String :=
  ⟨t.data.foldl (fun acc c => if c = '}' then [] else acc ++ [c]) []⟩

/-- Coercion of one extension value, `gpx_routes.py` line 91:
`float(ext.text) if ext.text.replace('.','').isdigit() else ext.text`.
`None` text raises `AttributeError` on `.replace`; a digits-and-dots string
with two or more dots passes the `isdigit` test but makes `float` raise. -/
def coerceExt (o : Option String) : Except PyErr PyVal :=
  match o with
  | none => Except.error PyErr.attributeError
  | some s => if pyIsdigit (stripDots s) then pyFloat (some s) else Except.ok (PyVal.pStr s)

/-- The `elevation` entry (line 82): coerced when the `ele` element exists,
`None` otherwise. -/
def pyEleVal (o : Option String) : Except PyErr PyVal :=
  match o with
  | none => Except.ok PyVal.pNone
  | some s => pyFloat (some s)

/-- The `time` entry (line 83): the element text, or `None`. -/
def pyTimeVal (o : Option String) : PyVal :=
  match o with
  | none => PyVal.pNone
  | some s => PyVal.pStr s

/-- The extension loop of `parse_gpx_file` (lines 87–91): one dict assignment
per extension child, aborting at the first exception. -/
def extFold (d : List (String × PyVal)) :
    List (String × Option String) → Except PyErr (List (String × PyVal))
  | [] => Except.ok d
  | e :: t =>
    match coerceExt e.2 with
    | Except.error err => Except.error err
    | Except.ok v => extFold (dinsert d (cleanTag e.1) v) t

/-- Translation of the `point_data` construction in `parse_gpx_file` (lines
78–93): the dict literal of the five fixed fields (evaluated left to right,
the first exception propagating), then the extension loop. -/
def parseTrkpt (filename : String) (p : Trkpt) :
    Except PyErr (List (String × PyVal)) :=
  match pyFloat p.lat with
  | Except.error e => Except.error e
  | Except.ok latv =>
    match pyFloat p.lon with
    | Except.error e => Except.error e
    | Except.ok lonv =>
      match pyEleVal p.ele with
      | Except.error e => Except.error e
      | Except.ok elev =>
        extFold
          [("filename", PyVal.pStr filename), ("latitude", latv),
           ("longitude", lonv), ("elevation", elev), ("time", pyTimeVal p.time)]
          p.exts

/-- Translation of `parse_gpx_file`: one dict per trackpoint, in document
order; an exception at any trackpoint abandons the whole file (the partially
built `data` list is lost). -/
def parseGpxFile (filename : String) :
    List Trkpt → Except PyErr (List (List (String × PyVal)))
  | [] => Except.ok []
  | p :: ps =>
    match parseTrkpt filename p with
    | Except.error e => Except.error e
    | Except.ok d =>
      match parseGpxFile filename ps with
      | Except.error e => Except.error e
      | Except.ok ds => Except.ok (d :: ds)

/-- One source unit of the GPX driver: a file name and its trackpoints. -/
structure GpxFile : Type where
  name : String
  pts : List Trkpt
deriving DecidableEq

/-- The `all_data` accumulation of `process_gpx_files` (lines 108–121): each
file is parsed under a per-file `try`/`except`; a failing file contributes
nothing and processing continues with the remaining files. -/
def gpxAllData : List GpxFile → List (List (String × PyVal))
  | [] => []
  | f :: fs =>
    match parseGpxFile f.name f.pts with
    | Except.ok d => d ++ gpxAllData fs
    | Except.error _ => gpxAllData fs

/-- Column inference of `pd.DataFrame(all_data)` (line 123): the union of the
dict keys in order of first appearance. -/
def pandasColumns (dicts : List (List (String × PyVal))) : List String :=
  dicts.foldl (fun acc d => addNew acc (dkeys d)) []

/-- Model of `pd.to_datetime` acceptance on one time text, restricted to the
ISO-8601 profile GPX `time` elements carry (`YYYY-MM-DDTHH:MM:SSZ`); pandas
accepts further formats, but the claims only need that well-formed GPX
timestamps parse and that junk text raises. -/
def validDatetime (s : String) : Bool :=
  match s.data with
  | [y1, y2, y3, y4, '-', m1, m2, '-', d1, d2, 'T',
     h1, h2, ':', n1, n2, ':', s1, s2, 'Z'] =>
    [y1, y2, y3, y4, m1, m2, d1, d2, h1, h2, n1, n2, s1, s2].all isAsciiDigit
  | _ => false

/-- `pd.to_datetime` on one cell of the `time` column: a string either parses
to a timestamp or raises (`errors='raise'` is the default); `None` becomes
`NaT`, rendered like the null marker. -/
def toDatetimeCell (v : PyVal) : Except PyErr PyVal :=
  match v with
  | PyVal.pStr s =>
    if validDatetime s then Except.ok (PyVal.pTimestamp s)
    else Except.error PyErr.valueError
  | w => Except.ok w

/-- Conversion of one record's `time` entry by the column-wide
`pd.to_datetime` (a record without the key contributes `NaN`, converted
without error). -/
def convertTime (d : List (String × PyVal)) :
    Except PyErr (List (String × PyVal)) :=
  match List.lookup "time" d with
  | some v => (toDatetimeCell v).map (fun w => dinsert d "time" w)
  | none => Except.ok d

/-- `df['time'] = pd.to_datetime(df['time'])` over the whole corpus: the first
unparsable time text raises and aborts the run. -/
def convertTimes : List (List (String × PyVal)) →
    Except PyErr (List (List (String × PyVal)))
  | [] => Except.ok []
  | d :: ds =>
    match convertTime d with
    | Except.error e => Except.error e
    | Except.ok d2 =>
      match convertTimes ds with
      | Except.error e => Except.error e
      | Except.ok ds2 => Except.ok (d2 :: ds2)

/-- The record dicts after the guarded time conversion of
`process_gpx_files` lines 126–127: `if 'time' in df.columns` (an empty
DataFrame has no columns, so the step is skipped). -/
def gpxFinalData (files : List GpxFile) :
    Except PyErr (List (List (String × PyVal))) :=
  let ds := gpxAllData files
  if "time" ∈ pandasColumns ds then convertTimes ds else Except.ok ds

/-- Translation of `process_gpx_files`: raises `FileNotFoundError` when the
glob matches nothing, then builds the DataFrame (columns by first appearance,
a missing key is the `NaN` null marker `pNone`) and applies the
`pd.to_datetime` conversion to the `time` column, which raises on unparsable
time text. -/
def processGpxFiles (files : List GpxFile) :
    Except PyErr (List String × List (List PyVal)) :=
  if files.isEmpty then Except.error PyErr.fileNotFound
  else
    match gpxFinalData files with
    | Except.error e => Except.error e
    | Except.ok ds2 =>
      let cols := pandasColumns (gpxAllData files)
      Except.ok (cols, ds2.map (fun d => cols.map (fun c => (List.lookup c d).getD PyVal.pNone)))

/-- Translation of `main` of `gpx_routes.py`: exit code 1 on any exception
escaping `process_gpx_files`, else 0 with the written table. -/
def gpxMain (files : List GpxFile) :
    Nat × Option (List String × List (List PyVal)) :=
  match processGpxFiles files with
  | Except.ok out => (0, some out)
  | Except.error _ => (1, none)

/-- The header produced by a successful GPX run (empty on failure). -/
def gpxHeaderOf (files : List GpxFile) : List String :=
  match processGpxFiles files with
  | Except.ok out => out.1
  | Except.error _ => []

/-! ### Health pipeline (`src/extract/health_records.py`) -/

/-- One `Record` element of the export: its `type` attribute, the four fixed
attributes (`.get` yields `None` when absent), and its `MetadataEntry`
children as (key, value) attribute pairs in document order. -/
structure HRecord : Type where
  rtype : String
  startDate : Option String
  value : Option String
  unit : Option String
  sourceName : Option String
  metadata : List (String × String)
deriving DecidableEq

/-- The fixed header prefix of `export_record_type` (line 116). -/
def healthFixedCols : List String := ["startDate", "value", "unit", "sourceName"]

/-- Translation of `_get_metadata_keys` (lines 68–85): the union of every
metadata key over all records.  The Python `set` is represented as a
deduplicated list; its iteration order is irrelevant because the only use is
`sorted(metadata_keys)`. -/
def metadataKeyList (records : List HRecord) : List String :=
  records.foldl (fun acc r => addNew acc (r.metadata.map Prod.fst)) []

/-- Header preparation of `export_record_type` (lines 116–118): the four fixed
columns followed by the sorted metadata keys (`headers.extend(sorted(...))`;
when the key set is empty the `extend` is skipped, which appends nothing
either way). -/
def healthHeaders (records : List HRecord) : List String :=
  healthFixedCols ++ pySorted (metadataKeyList records)

/-- The `row` dict built for one record (lines 126–136): a literal with the
four fixed columns, then one assignment per metadata entry (overwriting on key
collision, as Python dict assignment does). -/
def rowDict (r : HRecord) : List (String × Option String) :=
  dinsertList
    [("startDate", r.startDate), ("value", r.value), ("unit", r.unit),
     ("sourceName", r.sourceName)]
    (r.metadata.map (fun p => (p.1, some p.2)))

/-- Rendering of one cell by `csv.DictWriter.writerow`: a key missing from the
row dict is written as the `restval` default (the empty string), and a `None`
value is also written as the empty string. -/
def renderCell (c : Option (Option String)) : String :=
  match c with
  | none => ""
  | some none => ""
  | some (some s) => s

/-- One CSV data row: the row dict projected onto the header columns. -/
def renderRow (hdr : List String) (r : HRecord) : List String :=
  hdr.map (fun c => renderCell (List.lookup c (rowDict r)))

/-- The writer loop of `export_record_type` (lines 125–138): one `writerow`
per record, in order. -/
def writeRows (hdr : List String) (records : List HRecord) : List (List String) :=
  records.foldl (fun out r => out ++ [renderRow hdr r]) []

/-- Translation of `export_record_type` (lines 102–138): with no matching
records it logs a warning and returns without writing anything (`none`);
otherwise it writes the header and the rows. -/
def exportRecordType (records : List HRecord) :
    Option (List String × List (List String)) :=
  if records.isEmpty then none
  else some (healthHeaders records, writeRows (healthHeaders records) records)

/-- The `findall` record selection (line 102). -/
def healthMatching (all : List HRecord) (t : String) : List HRecord :=
  all.filter (fun r => r.rtype == t)

/-- Translation of the health `main` path for `--type`: `export_record_type`
is not wrapped in any handler that exits, and the zero-records case only
warns, so the exit code is 0 whether or not anything was written. -/
def healthMain (all : List HRecord) (t : String) :
    Nat × Option (List String × List (List String)) :=
  match exportRecordType (healthMatching all t) with
  | none => (0, none)
  | some out => (0, some out)

/-! ### The two corpus-driver strategies over a common record model

Section 4.4 of the specification demands that materialize-then-flatten (the
GPX driver) and two-pass streaming (the health driver) be observably
equivalent on the same input.  To state that, the schema-and-projection
skeleton of each driver is reproduced here over a shared record type: a
record has a list of fixed-column values plus a dynamic key/value bag, and
each strategy infers its header and projects every record onto it.  A `none`
cell is the strategy's null marker (pandas `NaN`, respectively the
`DictWriter` `restval`).
-/

/-- A normalized record for the strategy comparison: values for the fixed
columns (in the fixed-column order), plus the dynamic bag in discovery
order. -/
structure DRec (V : Type) : Type where
  fixedVals : List V
  dyn : List (String × V)
deriving DecidableEq

/-- The per-record dict both drivers build: the fixed fields first, then the
dynamic entries, with dict-assignment semantics. -/
def recDict {V : Type} (fixedCols : List String) (r : DRec V) :
    List (String × V) :=
  dinsertList [] (fixedCols.zip r.fixedVals ++ r.dyn)

/-- Materialize-then-flatten (`process_gpx_files` + `pd.DataFrame`): every
record dict is collected, the header is the first-appearance union of the
dict keys, and each record is projected onto it (missing key = `NaN`). -/
def materializeOut {V : Type} (fixedCols : List String) (recs : List (DRec V)) :
    List String × List (List (Option V)) :=
  let cols := recs.foldl (fun acc r => addNew acc (dkeys (recDict fixedCols r))) []
  (cols, recs.map (fun r => cols.map (fun c => List.lookup c (recDict fixedCols r))))

/-- Two-pass streaming (`export_record_type`): pass 1 computes the dynamic
key union and sorts it after the static fixed columns, pass 2 projects each
record onto that header (missing key = `restval`). -/
def streamingOut {V : Type} (fixedCols : List String) (recs : List (DRec V)) :
    List String × List (List (Option V)) :=
  let hdr := fixedCols ++
    pySorted (recs.foldl (fun acc r => addNew acc (r.dyn.map Prod.fst)) [])
  (hdr, recs.map (fun r => hdr.map (fun c => List.lookup c (recDict fixedCols r))))

/-! ### Concrete inputs used by counterexamples and witnesses -/

/-- The fixed columns of the GPX pipeline, in source order. -/
def gpxFixedColsList : List String :=
  ["filename", "latitude", "longitude", "elevation", "time"]

/-- A trackpoint whose extensions appear in the order `hr`, `cad`. -/
def exPt : Trkpt :=
  ⟨some "1.0", some "2.0", none, none, [("hr", some "120"), ("cad", some "80")]⟩

/-- A well-formed trackpoint without extensions. -/
def goodPt : Trkpt := ⟨some "1.0", some "2.0", none, none, []⟩

/-- A trackpoint whose mandatory `lat` attribute is unparsable as float. -/
def badLatPt : Trkpt := ⟨some "abc", some "2.0", none, none, []⟩

/-- A trackpoint with an extension element whose text is `None`. -/
def noneExtPt : Trkpt := ⟨some "1.0", some "2.0", none, none, [("hr", none)]⟩

/-- A trackpoint whose extension tag collides with the fixed column
`elevation`. -/
def collidePt : Trkpt :=
  ⟨some "1.0", some "2.0", some "5", none, [("elevation", some "99")]⟩

/-- A GPX file with a single `hr` extension key. -/
def fileHr : GpxFile :=
  ⟨"a.gpx", [⟨some "1.0", some "2.0", none, none, [("hr", some "120")]⟩]⟩

/-- A GPX file with a single `cad` extension key. -/
def fileCad : GpxFile :=
  ⟨"b.gpx", [⟨some "3.0", some "4.0", none, none, [("cad", some "80")]⟩]⟩

/-- A trackpoint whose `time` element text is not parsable as a datetime. -/
def badTimePt : Trkpt := ⟨some "1.0", some "2.0", none, some "hello", []⟩

/-- A GPX file whose only trackpoint has unparsable time text. -/
def badTimeFile : GpxFile := ⟨"t.gpx", [badTimePt]⟩

/-- A step-count health record with no metadata. -/
def stepsRec : HRecord :=
  ⟨"HKQuantityTypeIdentifierStepCount", some "2024-01-01", some "100",
   some "count", some "Phone", []⟩

/-- A heart-rate health record whose metadata key `HKFoo` is present with an
empty value. -/
def emptyMetaRec : HRecord :=
  ⟨"HKQuantityTypeIdentifierHeartRate", some "2024-01-01", some "60",
   some "bpm", some "Watch", [("HKFoo", "")]⟩

/-- A heart-rate health record with one metadata entry. -/
def hrMetaRec : HRecord :=
  ⟨"HKQuantityTypeIdentifierHeartRate", some "2024-01-02", some "61",
   some "bpm", some "Watch", [("HKMetadataKeyHeartRateMotionContext", "1")]⟩

/-- A strategy-comparison record whose dynamic keys appear in the unsorted
order `hr`, `cad`. -/
def dRecHrCad : DRec String := ⟨["1.0", "2.0"], [("hr", "120"), ("cad", "80")]⟩

/-! ## Lemmas -/

/-! ### Sorting -/

lemma pySorted_perm (l : List String) : (pySorted l).Perm l :=
  List.perm_insertionSort strLe l

lemma pySorted_sorted (l : List String) : List.Sorted strLe (pySorted l) :=
  List.sorted_insertionSort strLe l

lemma pySorted_nodup {l : List String} (h : l.Nodup) : (pySorted l).Nodup :=
  (pySorted_perm l).nodup_iff.mpr h

lemma mem_pySorted {x : String} {l : List String} : x ∈ pySorted l ↔ x ∈ l :=
  (pySorted_perm l).mem_iff

/-- Sorting two lists that are permutations of each other gives the same list. -/
lemma pySorted_eq_of_perm {l l₂ : List String} (h : l.Perm l₂) :
    pySorted l = pySorted l₂ :=
  List.eq_of_perm_of_sorted ((pySorted_perm l).trans (h.trans (pySorted_perm l₂).symm))
    (pySorted_sorted l) (pySorted_sorted l₂)

/-! ### First-appearance accumulation -/

lemma mem_addNew {x : String} : ∀ {ks acc : List String},
    x ∈ addNew acc ks ↔ x ∈ acc ∨ x ∈ ks := by
  intro ks
  induction ks with
  | nil => intro acc; simp [addNew]
  | cons k ks ih =>
    intro acc
    show x ∈ addNew (if k ∈ acc then acc else acc ++ [k]) ks ↔ _
    rw [ih]
    by_cases hk : k ∈ acc
    · simp only [if_pos hk, List.mem_cons]
      constructor
      · rintro (h | h)
        · exact Or.inl h
        · exact Or.inr (Or.inr h)
      · rintro (h | h | h)
        · exact Or.inl h
        · exact Or.inl (h ▸ hk)
        · exact Or.inr h
    · simp only [if_neg hk, List.mem_append, List.mem_singleton, List.mem_cons]
      tauto

lemma nodup_addNew : ∀ {ks acc : List String}, acc.Nodup → (addNew acc ks).Nodup := by
  intro ks
  induction ks with
  | nil => intro acc h; exact h
  | cons k ks ih =>
    intro acc h
    show (addNew (if k ∈ acc then acc else acc ++ [k]) ks).Nodup
    by_cases hk : k ∈ acc
    · rw [if_pos hk]; exact ih h
    · rw [if_neg hk]
      refine ih ?_
      simp [List.nodup_append, h, hk]

lemma addNew_append_of_disjoint : ∀ {ks acc : List String}, ks.Nodup →
    (∀ k ∈ ks, k ∉ acc) → addNew acc ks = acc ++ ks := by
  intro ks
  induction ks with
  | nil => intro acc _ _; simp [addNew]
  | cons k ks ih =>
    intro acc hnd hdisj
    show addNew (if k ∈ acc then acc else acc ++ [k]) ks = _
    rw [if_neg (hdisj k (List.mem_cons_self k ks))]
    rw [ih hnd.of_cons]
    · simp
    · intro x hx
      simp only [List.mem_append, List.mem_singleton]
      rintro (h | h)
      · exact hdisj x (List.mem_cons_of_mem k hx) h
      · exact (List.nodup_cons.mp hnd).1 (h ▸ hx)

/-- Membership in a fold of first-appearance unions. -/
lemma mem_addNew_foldl {α : Type} {f : α → List String} {x : String} :
    ∀ (l : List α) (init : List String),
    (x ∈ l.foldl (fun acc r => addNew acc (f r)) init ↔
      x ∈ init ∨ ∃ r ∈ l, x ∈ f r) := by
  intro l
  induction l with
  | nil => intro init; simp
  | cons r l ih =>
    intro init
    show x ∈ l.foldl _ (addNew init (f r)) ↔ _
    rw [ih, mem_addNew]
    simp only [List.mem_cons]
    constructor
    · rintro ((h | h) | ⟨r2, hr2, hx⟩)
      · exact Or.inl h
      · exact Or.inr ⟨r, Or.inl rfl, h⟩
      · exact Or.inr ⟨r2, Or.inr hr2, hx⟩
    · rintro (h | ⟨r2, (rfl | hr2), hx⟩)
      · exact Or.inl (Or.inl h)
      · exact Or.inl (Or.inr hx)
      · exact Or.inr ⟨r2, hr2, hx⟩

/-- Nodup is preserved by a fold of first-appearance unions. -/
lemma nodup_addNew_foldl {α : Type} {f : α → List String} :
    ∀ (l : List α) (init : List String), init.Nodup →
    (l.foldl (fun acc r => addNew acc (f r)) init).Nodup := by
  intro l
  induction l with
  | nil => intro init h; exact h
  | cons r l ih =>
    intro init h
    show (l.foldl _ (addNew init (f r))).Nodup
    exact ih _ (nodup_addNew h)

/-! ### Dict lemmas -/

lemma lookup_cons_same {V : Type} (t : List (String × V)) (k : String) (v : V) :
    List.lookup k ((k, v) :: t) = some v := by
  simp [List.lookup]

lemma lookup_cons_ne {V : Type} (t : List (String × V)) {x k : String} (v : V)
    (h : x ≠ k) : List.lookup x ((k, v) :: t) = List.lookup x t := by
  simp [List.lookup, beq_eq_false_iff_ne.mpr h]

lemma lookup_eq_none_of_not_mem {V : Type} : ∀ {l : List (String × V)}
    {x : String}, x ∉ l.map Prod.fst → List.lookup x l = none := by
  intro l
  induction l with
  | nil => intro x _; rfl
  | cons p t ih =>
    intro x hx
    simp only [List.map_cons, List.mem_cons] at hx
    push_neg at hx
    rw [lookup_cons_ne _ _ hx.1]
    exact ih hx.2

/-- The first occurrence of a key whose every occurrence carries the same
value yields that value. -/
lemma lookup_of_mem_unique {V : Type} : ∀ {l : List (String × V)} {k : String}
    {w : V}, (k, w) ∈ l → (∀ v, (k, v) ∈ l → v = w) → List.lookup k l = some w := by
  intro l
  induction l with
  | nil => intro k w h _; exact absurd h (List.not_mem_nil _)
  | cons p t ih =>
    intro k w hmem huniq
    obtain ⟨a, b⟩ := p
    by_cases hk : k = a
    · subst hk
      rw [lookup_cons_same]
      have : b = w := huniq b (List.mem_cons_self _ _)
      rw [this]
    · rw [lookup_cons_ne _ _ hk]
      refine ih ?_ ?_
      · rcases List.mem_cons.mp hmem with h | h
        · exact absurd (congrArg Prod.fst h) hk
        · exact h
      · intro v hv
        exact huniq v (List.mem_cons_of_mem _ hv)

lemma lookup_dinsert {V : Type} (d : List (String × V)) (k x : String) (v : V) :
    List.lookup x (dinsert d k v) = if x = k then some v else List.lookup x d := by
  induction d with
  | nil =>
    by_cases hx : x = k
    · subst hx; simp [dinsert, lookup_cons_same]
    · rw [if_neg hx]
      show List.lookup x [(k, v)] = _
      rw [lookup_cons_ne _ _ hx]
  | cons p t ih =>
    obtain ⟨a, w⟩ := p
    by_cases hak : a = k
    · subst hak
      have hd : dinsert ((a, w) :: t) a v = (a, v) :: t := by simp [dinsert]
      rw [hd]
      by_cases hx : x = a
      · subst hx; simp [lookup_cons_same]
      · rw [lookup_cons_ne _ _ hx, if_neg hx, lookup_cons_ne _ _ hx]
    · have hd : dinsert ((a, w) :: t) k v = (a, w) :: dinsert t k v := by
        simp [dinsert, hak]
      rw [hd]
      by_cases hx : x = a
      · subst hx
        rw [lookup_cons_same, if_neg hak, lookup_cons_same]
      · rw [lookup_cons_ne _ _ hx, ih, lookup_cons_ne _ _ hx]

lemma mem_dkeys_dinsert {V : Type} {d : List (String × V)} {k x : String} {v : V} :
    x ∈ dkeys (dinsert d k v) ↔ x ∈ dkeys d ∨ x = k := by
  induction d with
  | nil => simp [dinsert, dkeys]
  | cons p t ih =>
    obtain ⟨a, w⟩ := p
    by_cases hak : a = k
    · subst hak
      have hd : dinsert ((a, w) :: t) a v = (a, v) :: t := by simp [dinsert]
      rw [hd]
      simp only [dkeys, List.map_cons, List.mem_cons]
      tauto
    · have hd : dinsert ((a, w) :: t) k v = (a, w) :: dinsert t k v := by
        simp [dinsert, hak]
      rw [hd]
      simp only [dkeys, List.map_cons, List.mem_cons]
      have ih2 : x ∈ List.map Prod.fst (dinsert t k v) ↔
          x ∈ List.map Prod.fst t ∨ x = k := ih
      rw [ih2]
      tauto

lemma dinsert_of_not_mem {V : Type} {d : List (String × V)} {k : String} {v : V}
    (h : k ∉ dkeys d) : dinsert d k v = d ++ [(k, v)] := by
  induction d with
  | nil => simp [dinsert]
  | cons p t ih =>
    obtain ⟨a, w⟩ := p
    simp only [dkeys, List.map_cons, List.mem_cons] at h
    push_neg at h
    have hd : dinsert ((a, w) :: t) k v = (a, w) :: dinsert t k v := by
      simp [dinsert, Ne.symm h.1]
    rw [hd, ih h.2]
    simp

lemma dinsertList_eq_append {V : Type} : ∀ {l : List (String × V)}
    {d : List (String × V)}, (l.map Prod.fst).Nodup →
    (∀ k ∈ l.map Prod.fst, k ∉ dkeys d) → dinsertList d l = d ++ l := by
  intro l
  induction l with
  | nil => intro d _ _; simp [dinsertList]
  | cons p t ih =>
    intro d hnd hdisj
    obtain ⟨a, w⟩ := p
    show dinsertList (dinsert d a w) t = _
    have h1 : a ∉ dkeys d := hdisj a (by simp)
    rw [dinsert_of_not_mem h1]
    simp only [List.map_cons] at hnd
    have hnd2 : (t.map Prod.fst).Nodup := hnd.of_cons
    have hfresh : a ∉ t.map Prod.fst := (List.nodup_cons.mp hnd).1
    rw [ih hnd2 ?_]
    · simp
    · intro k hk
      simp only [dkeys, List.map_append, List.mem_append, List.map_cons,
        List.map_nil, List.mem_singleton]
      rintro (h | h)
      · exact hdisj k (List.mem_cons_of_mem _ hk) h
      · subst h
        exact hfresh hk

lemma lookup_dinsertList {V : Type} : ∀ (l : List (String × V))
    (d : List (String × V)) (x : String),
    List.lookup x (dinsertList d l) =
      (List.lookup x l.reverse).or (List.lookup x d) := by
  intro l
  induction l with
  | nil => intro d x; simp [dinsertList]
  | cons p t ih =>
    intro d x
    obtain ⟨a, w⟩ := p
    show List.lookup x (dinsertList (dinsert d a w) t) = _
    rw [ih, lookup_dinsert]
    rw [List.reverse_cons, List.lookup_append]
    by_cases hx : x = a
    · subst hx
      rw [lookup_cons_same]
      cases List.lookup x t.reverse <;> simp [Option.or]
    · rw [if_neg hx, lookup_cons_ne _ _ hx]
      cases List.lookup x t.reverse <;> simp [Option.or, List.lookup]

lemma mem_dkeys_dinsertList {V : Type} : ∀ {l d : List (String × V)} {x : String},
    x ∈ dkeys (dinsertList d l) ↔ x ∈ dkeys d ∨ x ∈ l.map Prod.fst := by
  intro l
  induction l with
  | nil => intro d x; simp [dinsertList]
  | cons p t ih =>
    intro d x
    obtain ⟨a, w⟩ := p
    show x ∈ dkeys (dinsertList (dinsert d a w) t) ↔ _
    rw [ih, mem_dkeys_dinsert]
    simp only [List.map_cons, List.mem_cons]
    tauto

/-! ### Numeric-detection lemmas -/

/-- A string whose dot-stripped form is a nonempty digit string consists of
digits and dots only, with at least one digit. -/
lemma chars_of_pyIsdigit_stripDots {s : String}
    (h : pyIsdigit (stripDots s) = true) :
    (∀ c ∈ s.data, isAsciiDigit c = true ∨ c = '.') ∧
    (∃ c ∈ s.data, isAsciiDigit c = true) := by
  have h2 : pyIsdigit ⟨s.data.filter (fun c => decide (c ≠ '.'))⟩ = true := h
  unfold pyIsdigit at h2
  rw [Bool.and_eq_true] at h2
  obtain ⟨hne, hall⟩ := h2
  constructor
  · intro c hc
    by_cases hdot : c = '.'
    · exact Or.inr hdot
    · left
      have hmem : c ∈ s.data.filter (fun c => decide (c ≠ '.')) := by
        rw [List.mem_filter]
        exact ⟨hc, by simp [hdot]⟩
      exact List.all_eq_true.mp hall c hmem
  · have hne2 : s.data.filter (fun c => decide (c ≠ '.')) ≠ [] := by
      intro hcontra
      rw [show (⟨s.data.filter (fun c => decide (c ≠ '.'))⟩ : String).data =
        s.data.filter (fun c => decide (c ≠ '.')) from rfl, hcontra] at hne
      simp at hne
    obtain ⟨c, hc⟩ := List.exists_mem_of_ne_nil _ hne2
    exact ⟨c, (List.mem_filter.mp hc).1, List.all_eq_true.mp hall c hc⟩

/-- On a dot-stripped digit string, `float` succeeds exactly when the original
has at most one decimal point. -/
lemma validFloat_of_digits {s : String} (h : pyIsdigit (stripDots s) = true) :
    validFloat s = decide (dotCount s ≤ 1) := by
  obtain ⟨hchars, hex⟩ := chars_of_pyIsdigit_stripDots h
  unfold validFloat
  cases hs : s.data with
  | nil =>
    obtain ⟨c, hc, _⟩ := hex
    rw [hs] at hc
    exact absurd hc (List.not_mem_nil _)
  | cons c0 rest =>
    rw [hs] at hchars hex
    have hc0 : isAsciiDigit c0 = true ∨ c0 = '.' := hchars c0 (by simp)
    have hsign : ¬ (c0 = '+' ∨ c0 = '-') := by
      rcases hc0 with h1 | h1
      · rintro (rfl | rfl) <;> simp [isAsciiDigit] at h1
      · subst h1
        rintro (h2 | h2) <;> cases h2
    show ((if c0 = '+' ∨ c0 = '-' then rest else c0 :: rest).any isAsciiDigit &&
        (if c0 = '+' ∨ c0 = '-' then rest else c0 :: rest).all
          (fun c => isAsciiDigit c || decide (c = '.')) &&
        decide ((if c0 = '+' ∨ c0 = '-' then rest else c0 :: rest).count '.' ≤ 1)) =
      decide (dotCount s ≤ 1)
    rw [if_neg hsign]
    have hany : (c0 :: rest).any isAsciiDigit = true := by
      rw [List.any_eq_true]
      obtain ⟨c, hc, hd⟩ := hex
      exact ⟨c, hc, hd⟩
    have hall : (c0 :: rest).all (fun c => isAsciiDigit c || decide (c = '.')) = true := by
      rw [List.all_eq_true]
      intro c hc
      rcases hchars c hc with h1 | h1
      · simp [h1]
      · simp [h1]
    rw [hany, hall]
    simp [dotCount, hs]

/-! ### GPX error propagation -/

/-- The extension loop raises as soon as some extension's coercion raises. -/
lemma extFold_error_of_mem : ∀ {exts : List (String × Option String)}
    {d : List (String × PyVal)},
    (∃ e ∈ exts, ∃ err, coerceExt e.2 = Except.error err) →
    ∃ err, extFold d exts = Except.error err := by
  intro exts
  induction exts with
  | nil =>
    intro d h
    obtain ⟨e, he, _⟩ := h
    exact absurd he (List.not_mem_nil _)
  | cons e0 t ih =>
    intro d h
    obtain ⟨e, he, err, herr⟩ := h
    cases hc : coerceExt e0.2 with
    | error err0 => exact ⟨err0, by simp [extFold, hc]⟩
    | ok v =>
      rcases List.mem_cons.mp he with rfl | he2
      · rw [hc] at herr
        cases herr
      · obtain ⟨err2, h2⟩ := @ih (dinsert d (cleanTag e0.1) v) ⟨e, he2, err, herr⟩
        exact ⟨err2, by simp [extFold, hc, h2]⟩

/-- A trackpoint carrying an extension with `None` text makes `parse_gpx_file`
raise (either at that coercion, or earlier while coercing a fixed field). -/
lemma parseTrkpt_error_of_ext_none (fn : String) {p : Trkpt}
    (h : ∃ t, (t, (none : Option String)) ∈ p.exts) :
    ∃ e, parseTrkpt fn p = Except.error e := by
  have hext : ∃ e ∈ p.exts, ∃ err, coerceExt e.2 = Except.error err := by
    obtain ⟨tg, htg⟩ := h
    exact ⟨(tg, none), htg, PyErr.attributeError, rfl⟩
  unfold parseTrkpt
  cases hl : pyFloat p.lat with
  | error e => exact ⟨e, rfl⟩
  | ok latv =>
    cases hlon : pyFloat p.lon with
    | error e => exact ⟨e, rfl⟩
    | ok lonv =>
      cases hele : pyEleVal p.ele with
      | error e => exact ⟨e, rfl⟩
      | ok elev => exact extFold_error_of_mem hext

/-- A trackpoint whose `lat` or `lon` fails float coercion makes
`parse_gpx_file` raise. -/
lemma parseTrkpt_error_of_bad_latlon (fn : String) {p : Trkpt}
    (h : (∃ e, pyFloat p.lat = Except.error e) ∨
      (∃ e, pyFloat p.lon = Except.error e)) :
    ∃ e, parseTrkpt fn p = Except.error e := by
  unfold parseTrkpt
  cases hl : pyFloat p.lat with
  | error e => exact ⟨e, rfl⟩
  | ok latv =>
    cases hlon : pyFloat p.lon with
    | error e => exact ⟨e, rfl⟩
    | ok lonv =>
      exfalso
      rcases h with ⟨e, he⟩ | ⟨e, he⟩
      · rw [hl] at he; cases he
      · rw [hlon] at he; cases he

/-- An exception at any trackpoint makes the whole file's parse raise. -/
lemma parseGpxFile_error_of_mem (fn : String) : ∀ {pts : List Trkpt} {p : Trkpt},
    p ∈ pts → (∃ e, parseTrkpt fn p = Except.error e) →
    ∃ e, parseGpxFile fn pts = Except.error e := by
  intro pts
  induction pts with
  | nil =>
    intro p hp _
    exact absurd hp (List.not_mem_nil _)
  | cons q t ih =>
    intro p hp herr
    cases hq : parseTrkpt fn q with
    | error e => exact ⟨e, by simp [parseGpxFile, hq]⟩
    | ok d =>
      rcases List.mem_cons.mp hp with rfl | hp2
      · obtain ⟨e, he⟩ := herr
        rw [hq] at he
        cases he
      · obtain ⟨e, he⟩ := ih hp2 herr
        exact ⟨e, by simp [parseGpxFile, hq, he]⟩

lemma gpxAllData_append : ∀ fs gs : List GpxFile,
    gpxAllData (fs ++ gs) = gpxAllData fs ++ gpxAllData gs := by
  intro fs gs
  induction fs with
  | nil => simp [gpxAllData]
  | cons f t ih =>
    show gpxAllData (f :: (t ++ gs)) = _
    cases hf : parseGpxFile f.name f.pts with
    | ok d => simp [gpxAllData, hf, ih]
    | error e => simp [gpxAllData, hf, ih]

/-- A file whose parse raises contributes nothing to `all_data`; the other
files are unaffected. -/
lemma gpxAllData_drop {fn : String} {pts : List Trkpt}
    (h : ∃ e, parseGpxFile fn pts = Except.error e)
    (files₁ files₂ : List GpxFile) :
    gpxAllData (files₁ ++ ⟨fn, pts⟩ :: files₂) = gpxAllData (files₁ ++ files₂) := by
  obtain ⟨e, he⟩ := h
  rw [gpxAllData_append, gpxAllData_append]
  congr 1
  show gpxAllData (⟨fn, pts⟩ :: files₂) = gpxAllData files₂
  simp [gpxAllData, he]

/-! ### Health pipeline lemmas -/

lemma writeRows_eq_map (hdr : List String) (records : List HRecord) :
    writeRows hdr records = records.map (renderRow hdr) := by
  have aux : ∀ (recs : List HRecord) (out : List (List String)),
      recs.foldl (fun o r => o ++ [renderRow hdr r]) out =
        out ++ recs.map (renderRow hdr) := by
    intro recs
    induction recs with
    | nil => intro out; simp
    | cons r t ih =>
      intro out
      show t.foldl _ (out ++ [renderRow hdr r]) = _
      rw [ih]
      simp
  show records.foldl _ [] = _
  rw [aux]
  simp

lemma mem_metadataKeyList {x : String} {records : List HRecord} :
    x ∈ metadataKeyList records ↔ ∃ r ∈ records, x ∈ r.metadata.map Prod.fst := by
  unfold metadataKeyList
  rw [mem_addNew_foldl]
  simp

lemma nodup_metadataKeyList (records : List HRecord) :
    (metadataKeyList records).Nodup :=
  nodup_addNew_foldl records [] List.nodup_nil

/-! ### Time-conversion lemmas -/

lemma mem_pandasColumns {x : String} {ds : List (List (String × PyVal))} :
    x ∈ pandasColumns ds ↔ ∃ d ∈ ds, x ∈ dkeys d := by
  unfold pandasColumns
  rw [@mem_addNew_foldl _ dkeys x ds []]
  simp

lemma dkeys_dinsert_of_mem {V : Type} {d : List (String × V)} {k : String}
    {v : V} (h : k ∈ dkeys d) : dkeys (dinsert d k v) = dkeys d := by
  induction d with
  | nil => simp [dkeys] at h
  | cons p t ih =>
    obtain ⟨a, w⟩ := p
    by_cases hak : a = k
    · subst hak
      have hd : dinsert ((a, w) :: t) a v = (a, v) :: t := by simp [dinsert]
      rw [hd]
      rfl
    · have hd : dinsert ((a, w) :: t) k v = (a, w) :: dinsert t k v := by
        simp [dinsert, hak]
      rw [hd]
      have hkt : k ∈ dkeys t := by
        simp only [dkeys, List.map_cons, List.mem_cons] at h
        rcases h with h | h
        · exact absurd h.symm hak
        · exact h
      show (a :: dkeys (dinsert t k v) : List String) = a :: dkeys t
      rw [ih hkt]

lemma lookup_mem_keys {V : Type} {d : List (String × V)} {k : String} {v : V}
    (h : List.lookup k d = some v) : k ∈ d.map Prod.fst := by
  by_contra hmem
  rw [lookup_eq_none_of_not_mem hmem] at h
  cases h

/-- A successful per-record time conversion keeps the keys and every cell
other than `time`. -/
lemma convertTime_ok_preserves {d d2 : List (String × PyVal)}
    (h : convertTime d = Except.ok d2) :
    dkeys d2 = dkeys d ∧
    ∀ K, K ≠ "time" → List.lookup K d2 = List.lookup K d := by
  unfold convertTime at h
  cases hl : List.lookup "time" d with
  | none =>
    rw [hl] at h
    obtain rfl : d = d2 := Except.ok.inj h
    exact ⟨rfl, fun K _ => rfl⟩
  | some v =>
    rw [hl] at h
    have h2 : Except.map (fun w => dinsert d "time" w) (toDatetimeCell v) =
        Except.ok d2 := h
    cases hv : toDatetimeCell v with
    | error e =>
      rw [hv] at h2
      simp [Except.map] at h2
    | ok w =>
      rw [hv] at h2
      simp only [Except.map] at h2
      obtain rfl : dinsert d "time" w = d2 := Except.ok.inj h2
      refine ⟨dkeys_dinsert_of_mem (lookup_mem_keys hl), ?_⟩
      intro K hK
      rw [lookup_dinsert, if_neg hK]

/-- The per-record time conversion raises exactly when the `time` cell is a
string that fails datetime parsing. -/
lemma convertTime_error_iff {d : List (String × PyVal)} :
    (∃ e, convertTime d = Except.error e) ↔
    ∃ s, List.lookup "time" d = some (PyVal.pStr s) ∧ validDatetime s = false := by
  unfold convertTime
  cases hl : List.lookup "time" d with
  | none => simp
  | some v =>
    cases v with
    | pStr s =>
      by_cases hvd : validDatetime s = true
      · simp [toDatetimeCell, hvd, Except.map]
      · have hvf : validDatetime s = false := by
          cases hq : validDatetime s
          · rfl
          · exact absurd hq hvd
        simp [toDatetimeCell, hvf, Except.map]
    | pNone => simp [toDatetimeCell, Except.map]
    | pFloat s => simp [toDatetimeCell, Except.map]
    | pTimestamp s => simp [toDatetimeCell, Except.map]

/-- A successful column-wide time conversion keeps, record by record, the
keys and every cell other than `time`. -/
lemma convertTimes_ok_preserves : ∀ {ds ds2 : List (List (String × PyVal))},
    convertTimes ds = Except.ok ds2 →
    ds2.map dkeys = ds.map dkeys ∧
    ∀ K, K ≠ "time" → ds2.map (List.lookup K) = ds.map (List.lookup K) := by
  intro ds
  induction ds with
  | nil =>
    intro ds2 h
    obtain rfl : ([] : List (List (String × PyVal))) = ds2 := Except.ok.inj h
    exact ⟨rfl, fun K _ => rfl⟩
  | cons d t ih =>
    intro ds2 h
    unfold convertTimes at h
    cases hcd : convertTime d with
    | error e =>
      rw [hcd] at h
      cases h
    | ok d2 =>
      rw [hcd] at h
      cases hct : convertTimes t with
      | error e =>
        rw [hct] at h
        cases h
      | ok t2 =>
        rw [hct] at h
        obtain rfl : d2 :: t2 = ds2 := Except.ok.inj h
        obtain ⟨hk1, hl1⟩ := convertTime_ok_preserves hcd
        obtain ⟨hk2, hl2⟩ := ih hct
        constructor
        · simp [hk1, hk2]
        · intro K hK
          simp [hl1 K hK, hl2 K hK]

/-- The column-wide time conversion raises exactly when some record's `time`
cell is a string that fails datetime parsing. -/
lemma convertTimes_error_iff : ∀ {ds : List (List (String × PyVal))},
    (∃ e, convertTimes ds = Except.error e) ↔
    ∃ d ∈ ds, ∃ s, List.lookup "time" d = some (PyVal.pStr s) ∧
      validDatetime s = false := by
  intro ds
  induction ds with
  | nil => simp [convertTimes]
  | cons d t ih =>
    unfold convertTimes
    cases hcd : convertTime d with
    | error e =>
      constructor
      · intro _
        obtain ⟨s, hs1, hs2⟩ := convertTime_error_iff.mp ⟨e, hcd⟩
        exact ⟨d, List.mem_cons_self _ _, s, hs1, hs2⟩
      · intro _
        exact ⟨e, rfl⟩
    | ok d2 =>
      cases hct : convertTimes t with
      | error e =>
        constructor
        · intro _
          obtain ⟨d3, hd3, s, hs1, hs2⟩ := ih.mp ⟨e, hct⟩
          exact ⟨d3, List.mem_cons_of_mem _ hd3, s, hs1, hs2⟩
        · intro _
          exact ⟨e, rfl⟩
      | ok t2 =>
        constructor
        · rintro ⟨e, he⟩
          cases he
        · rintro ⟨d3, hd3, s, hs1, hs2⟩
          exfalso
          rcases List.mem_cons.mp hd3 with rfl | hd3t
          · obtain ⟨e, he⟩ := convertTime_error_iff.mpr ⟨s, hs1, hs2⟩
            rw [hcd] at he
            cases he
          · obtain ⟨e, he⟩ := ih.mpr ⟨d3, hd3t, s, hs1, hs2⟩
            rw [hct] at he
            cases he

/-- The GPX driver exits 1 exactly when `process_gpx_files` raises. -/
lemma gpxMain_exit_one_iff (files : List GpxFile) :
    (gpxMain files).1 = 1 ↔ ∃ e, processGpxFiles files = Except.error e := by
  unfold gpxMain
  cases h : processGpxFiles files with
  | ok out =>
    constructor
    · intro hc
      cases hc
    · rintro ⟨e, he⟩
      cases he
  | error e =>
    constructor
    · intro _
      exact ⟨e, rfl⟩
    · intro _
      rfl

/-- `process_gpx_files` raises exactly when the glob matches nothing or some
surviving record's time text fails datetime parsing. -/
lemma processGpxFiles_error_iff (files : List GpxFile) :
    (∃ e, processGpxFiles files = Except.error e) ↔
    files.isEmpty = true ∨
    ∃ d ∈ gpxAllData files, ∃ s,
      List.lookup "time" d = some (PyVal.pStr s) ∧ validDatetime s = false := by
  unfold processGpxFiles
  cases hq : files.isEmpty with
  | true =>
    simp only [if_pos rfl]
    constructor
    · intro _
      exact Or.inl (by simp)
    · intro _
      exact ⟨PyErr.fileNotFound, rfl⟩
  | false =>
    simp only [Bool.false_eq_true, if_false]
    have hfd : gpxFinalData files =
        (if "time" ∈ pandasColumns (gpxAllData files)
          then convertTimes (gpxAllData files)
          else Except.ok (gpxAllData files)) := rfl
    by_cases ht : "time" ∈ pandasColumns (gpxAllData files)
    · rw [hfd, if_pos ht]
      cases hct : convertTimes (gpxAllData files) with
      | error e =>
        constructor
        · intro _
          exact Or.inr (convertTimes_error_iff.mp ⟨e, hct⟩)
        · intro _
          exact ⟨e, rfl⟩
      | ok ds2 =>
        constructor
        · rintro ⟨e, he⟩
          cases he
        · rintro (h | hbad)
          · cases h
          · obtain ⟨e, he⟩ := convertTimes_error_iff.mpr hbad
            rw [hct] at he
            cases he
    · rw [hfd, if_neg ht]
      constructor
      · rintro ⟨e, he⟩
        cases he
      · rintro (h | ⟨d, hd, s, hs1, _⟩)
        · cases h
        · exact absurd (mem_pandasColumns.mpr ⟨d, hd, lookup_mem_keys hs1⟩) ht

/-! ## Claim theorems -/

/-- Claim C2 counterexample: the value `1.2.3` cannot become all digits by
removing at most one decimal point (it has two), so the claim requires it to
be kept as text without error; but the code strips every dot, the test
passes, and `float` then raises `ValueError`. -/
theorem C2_counterexample :
    dotCount "1.2.3" = 2 ∧
    pyIsdigit (stripDots "1.2.3") = true ∧
    coerceExt (some "1.2.3") = Except.error PyErr.valueError := by
  decide

/-- Claim C2 (amended): a dynamic value v is classified numeric iff removing
every decimal point (not at most one) from v yields a digit string; for v
with at most one dot this coincides with the claimed rule and never raises,
but a digits-and-dots v with two or more dots raises ValueError instead of
being kept as text; any v failing the stripped-digits test is kept as text. -/
theorem C2_amended_numeric_rule (s : String) :
    (coerceExt (some s) = Except.ok (PyVal.pFloat s) ↔
      pyIsdigit (stripDots s) = true ∧ dotCount s ≤ 1) ∧
    (coerceExt (some s) = Except.error PyErr.valueError ↔
      pyIsdigit (stripDots s) = true ∧ 2 ≤ dotCount s) ∧
    (coerceExt (some s) = Except.ok (PyVal.pStr s) ↔
      pyIsdigit (stripDots s) = false) := by
  by_cases hd : pyIsdigit (stripDots s) = true
  · have hc : coerceExt (some s) = pyFloat (some s) := by
      simp [coerceExt, hd]
    have hv := validFloat_of_digits hd
    by_cases hdot : dotCount s ≤ 1
    · have hvt : validFloat s = true := by
        rw [hv]; simpa using hdot
      have hok : coerceExt (some s) = Except.ok (PyVal.pFloat s) := by
        rw [hc]; simp [pyFloat, hvt]
      refine ⟨?_, ?_, ?_⟩
      · simp [hok, hd, hdot]
      · simp only [hok]
        constructor
        · intro hcontra; cases hcontra
        · rintro ⟨_, h2⟩; omega
      · simp [hok, hd]
    · have hvf : validFloat s = false := by
        rw [hv]; simpa using hdot
      have herr : coerceExt (some s) = Except.error PyErr.valueError := by
        rw [hc]; simp [pyFloat, hvf]
      refine ⟨?_, ?_, ?_⟩
      · simp only [herr]
        constructor
        · intro hcontra; cases hcontra
        · rintro ⟨_, h2⟩; omega
      · simp only [herr, true_iff]
        exact ⟨hd, by omega⟩
      · simp [herr, hd]
  · have hb : pyIsdigit (stripDots s) = false := by
      cases hq : pyIsdigit (stripDots s)
      · rfl
      · exact absurd hq hd
    have hstr : coerceExt (some s) = Except.ok (PyVal.pStr s) := by
      simp [coerceExt, hb]
    refine ⟨?_, ?_, ?_⟩
    · simp [hstr, hb]
    · simp [hstr, hb]
    · simp [hstr, hb]

/-- Claim C9: a trackpoint whose extensions contain a child with `None` text
makes `parse_gpx_file` raise (never a null cell), and the per-file handler in
`process_gpx_files` then drops every record of that file. -/
theorem C9_none_text_aborts_file (fn : String) (pts : List Trkpt)
    (h : ∃ p ∈ pts, ∃ t, (t, (none : Option String)) ∈ p.exts) :
    (∃ e, parseGpxFile fn pts = Except.error e) ∧
    ∀ files₁ files₂ : List GpxFile,
      gpxAllData (files₁ ++ ⟨fn, pts⟩ :: files₂) = gpxAllData (files₁ ++ files₂) := by
  obtain ⟨p, hp, hext⟩ := h
  have herr := parseGpxFile_error_of_mem fn hp (parseTrkpt_error_of_ext_none fn hext)
  exact ⟨herr, fun files₁ files₂ => gpxAllData_drop herr files₁ files₂⟩

/-- Witness for C9 at a concrete file with a `None`-text extension. -/
theorem C9_witness :
    (∃ e, parseGpxFile "w.gpx" [noneExtPt] = Except.error e) ∧
    gpxAllData ([fileHr] ++ ⟨"w.gpx", [noneExtPt]⟩ :: []) = gpxAllData ([fileHr] ++ []) := by
  have h := C9_none_text_aborts_file "w.gpx" [noneExtPt]
    ⟨noneExtPt, by decide, "hr", by decide⟩
  exact ⟨h.1, h.2 [fileHr] []⟩

/-- Claim C6 counterexample: in a file holding a good record followed by a
record with unparsable latitude, the good record is parseable on its own, yet
the whole file raises and contributes zero records — the remaining records of
the unit are not included, contradicting per-record discard. -/
theorem C6_counterexample :
    parseTrkpt "w.gpx" goodPt =
      Except.ok [("filename", PyVal.pStr "w.gpx"), ("latitude", PyVal.pFloat "1.0"),
        ("longitude", PyVal.pFloat "2.0"), ("elevation", PyVal.pNone),
        ("time", PyVal.pNone)] ∧
    parseGpxFile "w.gpx" [goodPt, badLatPt] = Except.error PyErr.valueError ∧
    gpxAllData [⟨"w.gpx", [goodPt, badLatPt]⟩] = [] := by
  decide

/-- Claim C6 (amended): a record with an unparsable mandatory fixed field
aborts parsing of its whole source unit: every record of that file is
discarded, and only the other files continue to contribute records. -/
theorem C6_amended_file_level_discard (fn : String) (pts : List Trkpt) (p : Trkpt)
    (hp : p ∈ pts)
    (h : (∃ e, pyFloat p.lat = Except.error e) ∨
      (∃ e, pyFloat p.lon = Except.error e)) :
    (∃ e, parseGpxFile fn pts = Except.error e) ∧
    ∀ files₁ files₂ : List GpxFile,
      gpxAllData (files₁ ++ ⟨fn, pts⟩ :: files₂) = gpxAllData (files₁ ++ files₂) := by
  have herr := parseGpxFile_error_of_mem fn hp (parseTrkpt_error_of_bad_latlon fn h)
  exact ⟨herr, fun files₁ files₂ => gpxAllData_drop herr files₁ files₂⟩

/-- Witness for C6 at a concrete file with a bad-latitude record. -/
theorem C6_witness :
    (∃ e, parseGpxFile "w.gpx" [goodPt, badLatPt] = Except.error e) ∧
    gpxAllData ([fileHr] ++ ⟨"w.gpx", [goodPt, badLatPt]⟩ :: [fileCad]) =
      gpxAllData ([fileHr] ++ [fileCad]) := by
  have h := C6_amended_file_level_discard "w.gpx" [goodPt, badLatPt] badLatPt
    (by decide) (Or.inl ⟨PyErr.valueError, by decide⟩)
  exact ⟨h.1, h.2 [fileHr] [fileCad]⟩

/-- Claim C5 counterexample: a record whose extension tag equals the fixed
column `elevation` does not fail at inference time; the run succeeds, the
header gains no column, and the record's elevation value `5` is silently
replaced by the extension value `99`.  No `SchemaCollisionError` exists
anywhere in the code. -/
theorem C5_counterexample :
    processGpxFiles [⟨"w.gpx", [collidePt]⟩] =
      Except.ok (gpxFixedColsList,
        [[PyVal.pStr "w.gpx", PyVal.pFloat "1.0", PyVal.pFloat "2.0",
          PyVal.pFloat "99", PyVal.pNone]]) := by
  decide

/-- Claim C5 (amended): a dynamic key equal to a fixed column name raises no
error at any stage; the record parses successfully, the dict keeps the five
fixed keys and gains none, and the fixed field's value is silently overwritten
by the record-supplied dynamic value. -/
theorem C5_amended_silent_overwrite (fn latS lonS eleS extv : String)
    (hlat : validFloat latS = true) (hlon : validFloat lonS = true)
    (hele : validFloat eleS = true) (hext : pyIsdigit (stripDots extv) = true)
    (hdot : dotCount extv ≤ 1) :
    parseTrkpt fn ⟨some latS, some lonS, some eleS, none, [("elevation", some extv)]⟩ =
      Except.ok [("filename", PyVal.pStr fn), ("latitude", PyVal.pFloat latS),
        ("longitude", PyVal.pFloat lonS), ("elevation", PyVal.pFloat extv),
        ("time", PyVal.pNone)] := by
  have hv : validFloat extv = true := by
    rw [validFloat_of_digits hext]
    simpa using hdot
  have hcoerce : coerceExt (some extv) = Except.ok (PyVal.pFloat extv) := by
    simp [coerceExt, hext, pyFloat, hv]
  have h1 : pyFloat (some latS) = Except.ok (PyVal.pFloat latS) := by
    simp [pyFloat, hlat]
  have h2 : pyFloat (some lonS) = Except.ok (PyVal.pFloat lonS) := by
    simp [pyFloat, hlon]
  have h3 : pyEleVal (some eleS) = Except.ok (PyVal.pFloat eleS) := by
    simp [pyEleVal, pyFloat, hele]
  have hct : cleanTag "elevation" = "elevation" := by decide
  simp only [parseTrkpt, h1, h2, h3, pyTimeVal]
  simp only [extFold, hcoerce, hct]
  have hdins : dinsert
      [("filename", PyVal.pStr fn), ("latitude", PyVal.pFloat latS),
       ("longitude", PyVal.pFloat lonS), ("elevation", PyVal.pFloat eleS),
       ("time", PyVal.pNone)] "elevation" (PyVal.pFloat extv) =
      [("filename", PyVal.pStr fn), ("latitude", PyVal.pFloat latS),
       ("longitude", PyVal.pFloat lonS), ("elevation", PyVal.pFloat extv),
       ("time", PyVal.pNone)] := by
    simp [dinsert]
  rw [hdins]

/-- Witness for C5 at concrete field values. -/
theorem C5_witness :
    validFloat "1.0" = true ∧ validFloat "2.0" = true ∧ validFloat "5" = true ∧
    pyIsdigit (stripDots "99") = true ∧ dotCount "99" ≤ 1 ∧
    parseTrkpt "w.gpx" ⟨some "1.0", some "2.0", some "5", none,
        [("elevation", some "99")]⟩ =
      Except.ok [("filename", PyVal.pStr "w.gpx"), ("latitude", PyVal.pFloat "1.0"),
        ("longitude", PyVal.pFloat "2.0"), ("elevation", PyVal.pFloat "99"),
        ("time", PyVal.pNone)] :=
  ⟨by decide, by decide, by decide, by decide, by decide,
    C5_amended_silent_overwrite "w.gpx" "1.0" "2.0" "5" "99"
      (by decide) (by decide) (by decide) (by decide) (by decide)⟩

/-- Claim C4 counterexample: a metadata key present with an empty value
produces the empty-string text cell `some (some "")`, not the null marker;
only the rendered CSV field coincides with that of an absent key. -/
theorem C4_counterexample :
    List.lookup "HKFoo" (rowDict emptyMetaRec) = some (some "") ∧
    List.lookup "HKBar" (rowDict emptyMetaRec) = none ∧
    (some (some "") : Option (Option String)) ≠ none ∧
    renderCell (some (some "")) = renderCell none := by
  decide

/-- Claim C10: with at least one matching record, `export_record_type` writes
exactly one CSV data row per matching record, in document order. -/
theorem C10_one_row_per_record (all : List HRecord) (t : String)
    (h : healthMatching all t ≠ []) :
    ∃ rows, exportRecordType (healthMatching all t) =
        some (healthHeaders (healthMatching all t), rows) ∧
      rows.length = (healthMatching all t).length ∧
      ∀ i : Nat, rows[i]? = ((healthMatching all t)[i]?).map
        (renderRow (healthHeaders (healthMatching all t))) := by
  have hne : (healthMatching all t).isEmpty = false := by
    cases hq : healthMatching all t with
    | nil => exact absurd hq h
    | cons r rest => rfl
  refine ⟨writeRows (healthHeaders (healthMatching all t)) (healthMatching all t),
    ?_, ?_, ?_⟩
  · simp [exportRecordType, hne]
  · rw [writeRows_eq_map]
    simp
  · intro i
    rw [writeRows_eq_map, List.getElem?_map]

/-- Witness for C10 on a two-record corpus with one heart-rate match. -/
theorem C10_witness :
    healthMatching [stepsRec, hrMetaRec] "HKQuantityTypeIdentifierHeartRate" ≠ [] ∧
    (∃ rows, exportRecordType (healthMatching [stepsRec, hrMetaRec]
          "HKQuantityTypeIdentifierHeartRate") =
        some (healthHeaders (healthMatching [stepsRec, hrMetaRec]
          "HKQuantityTypeIdentifierHeartRate"), rows) ∧
      rows.length = (healthMatching [stepsRec, hrMetaRec]
        "HKQuantityTypeIdentifierHeartRate").length ∧
      ∀ i : Nat, rows[i]? = ((healthMatching [stepsRec, hrMetaRec]
          "HKQuantityTypeIdentifierHeartRate")[i]?).map
        (renderRow (healthHeaders (healthMatching [stepsRec, hrMetaRec]
          "HKQuantityTypeIdentifierHeartRate")))) :=
  ⟨by decide, C10_one_row_per_record [stepsRec, hrMetaRec]
    "HKQuantityTypeIdentifierHeartRate" (by decide)⟩

/-- Claim C7 counterexample: a run requesting a record type with zero matching
records terminates with exit code 0 (only a warning is logged), not the
non-zero exit the claim requires for that fatal condition. -/
theorem C7_counterexample :
    healthMatching [stepsRec] "HKQuantityTypeIdentifierHeartRate" = [] ∧
    healthMain [stepsRec] "HKQuantityTypeIdentifierHeartRate" = (0, none) := by
  decide

/-- Claim C7 (amended): the GPX driver exits non-zero exactly when zero source
units are discovered or some surviving record's time text fails the
`pd.to_datetime` conversion (per-file parse failures keep exit 0); the health
driver always exits 0, warning rather than failing when zero records match. -/
theorem C7_amended_exit_codes :
    (∀ files : List GpxFile,
      ((gpxMain files).1 = 1 ↔ files.isEmpty = true ∨
        ∃ d ∈ gpxAllData files, ∃ s,
          List.lookup "time" d = some (PyVal.pStr s) ∧ validDatetime s = false)) ∧
    (∀ files : List GpxFile, (gpxMain files).1 = 0 ∨ (gpxMain files).1 = 1) ∧
    (∀ (all : List HRecord) (t : String), (healthMain all t).1 = 0) := by
  refine ⟨?_, ?_, ?_⟩
  · intro files
    rw [gpxMain_exit_one_iff, processGpxFiles_error_iff]
  · intro files
    unfold gpxMain
    cases processGpxFiles files
    · right
      rfl
    · left
      rfl
  · intro all t
    unfold healthMain
    cases exportRecordType (healthMatching all t) <;> rfl

/-- Witness for C7: a nonempty corpus whose single record has unparsable time
text exits 1 through the datetime-conversion error path. -/
theorem C7_witness :
    (gpxMain [badTimeFile]).1 = 1 ∧ ([badTimeFile] : List GpxFile).isEmpty = false := by
  constructor
  · apply (C7_amended_exit_codes.1 [badTimeFile]).mpr
    right
    exact ⟨[("filename", PyVal.pStr "t.gpx"), ("latitude", PyVal.pFloat "1.0"),
      ("longitude", PyVal.pFloat "2.0"), ("elevation", PyVal.pNone),
      ("time", PyVal.pStr "hello")], by decide, "hello", by decide, by decide⟩
  · decide

/-- Claim C3 counterexample: a GPX corpus whose dynamic keys appear in the
order `hr`, `cad` yields a header with the dynamic columns in first-appearance
order, not the lexicographically sorted order the claim requires. -/
theorem C3_counterexample :
    gpxHeaderOf [⟨"w.gpx", [exPt]⟩] = gpxFixedColsList ++ ["hr", "cad"] ∧
    pySorted ["hr", "cad"] = ["cad", "hr"] ∧
    gpxHeaderOf [⟨"w.gpx", [exPt]⟩] ≠ gpxFixedColsList ++ pySorted ["hr", "cad"] := by
  decide

/-- Claim C3 (amended): the health exporter's header is the fixed columns
followed by a lexicographically sorted, deduplicated list containing exactly
the metadata keys observed in some record; the GPX exporter instead appends
dynamic columns in first-appearance order (see the counterexample). -/
theorem C3_amended_health_header_sorted (records : List HRecord) :
    ∃ L, healthHeaders records = healthFixedCols ++ L ∧
      List.Sorted strLe L ∧ L.Nodup ∧
      ∀ k, (k ∈ L ↔ ∃ r ∈ records, k ∈ r.metadata.map Prod.fst) := by
  refine ⟨pySorted (metadataKeyList records), rfl, pySorted_sorted _,
    pySorted_nodup (nodup_metadataKeyList records), ?_⟩
  intro k
  rw [mem_pySorted, mem_metadataKeyList]

/-- Claim C8 counterexample: swapping the order of two GPX source files — a
permutation of the same record multiset — changes the inferred header, because
pandas orders columns by first appearance. -/
theorem C8_counterexample :
    gpxHeaderOf [fileHr, fileCad] = gpxFixedColsList ++ ["hr", "cad"] ∧
    gpxHeaderOf [fileCad, fileHr] = gpxFixedColsList ++ ["cad", "hr"] ∧
    gpxHeaderOf [fileHr, fileCad] ≠ gpxHeaderOf [fileCad, fileHr] := by
  decide

/-- Claim C8 (amended): the health exporter's schema inference is permutation
invariant — any two orderings of the same record multiset give an identical
header — while GPX column inference is order dependent (see the
counterexample). -/
theorem C8_amended_health_schema_determinism (recs recs2 : List HRecord)
    (h : recs.Perm recs2) : healthHeaders recs = healthHeaders recs2 := by
  unfold healthHeaders
  congr 1
  apply pySorted_eq_of_perm
  apply List.perm_of_nodup_nodup_toFinset_eq (nodup_metadataKeyList recs)
    (nodup_metadataKeyList recs2)
  ext x
  simp only [List.mem_toFinset, mem_metadataKeyList]
  constructor
  · rintro ⟨r, hr, hx⟩
    exact ⟨r, h.mem_iff.mp hr, hx⟩
  · rintro ⟨r, hr, hx⟩
    exact ⟨r, h.mem_iff.mpr hr, hx⟩

/-- Witness for C8 on a concrete two-record swap. -/
theorem C8_witness :
    healthHeaders [stepsRec, hrMetaRec] = healthHeaders [hrMetaRec, stepsRec] :=
  C8_amended_health_schema_determinism _ _ (List.Perm.swap hrMetaRec stepsRec [])

/-- Claim C4 (amended): an absent dynamic key yields the pipeline's null
marker in both drivers (never an error or a default) — the GPX rows are the
projection of the time-converted dicts, whose keys and non-`time` cells are
those of the parsed records; but a metadata key present with an empty value
yields the empty-string text cell, conflated with null only in the rendered
CSV. -/
theorem C4_amended_null_preservation :
    (∀ (r : HRecord) (K : String), K ∉ healthFixedCols →
      K ∉ r.metadata.map Prod.fst → List.lookup K (rowDict r) = none) ∧
    (∀ (files : List GpxFile) (cols : List String) (rows : List (List PyVal)),
      processGpxFiles files = Except.ok (cols, rows) →
      ∃ ds2, gpxFinalData files = Except.ok ds2 ∧
        rows = ds2.map
          (fun d => cols.map (fun c => (List.lookup c d).getD PyVal.pNone)) ∧
        ds2.map dkeys = (gpxAllData files).map dkeys ∧
        ∀ K, K ≠ "time" →
          ds2.map (List.lookup K) = (gpxAllData files).map (List.lookup K)) ∧
    (∀ (d : List (String × PyVal)) (K : String), K ∉ dkeys d →
      (List.lookup K d).getD PyVal.pNone = PyVal.pNone) ∧
    (∀ (r : HRecord) (K : String), (K, "") ∈ r.metadata →
      (∀ v, (K, v) ∈ r.metadata → v = "") →
      List.lookup K (rowDict r) = some (some "")) := by
  refine ⟨?_, ?_, ?_, ?_⟩
  · intro r K hKfix hKmeta
    unfold rowDict
    rw [lookup_dinsertList]
    have hmeta : List.lookup K
        ((r.metadata.map (fun p => (p.1, some p.2))).reverse) = none := by
      apply lookup_eq_none_of_not_mem
      intro hc
      apply hKmeta
      rw [List.map_reverse, List.mem_reverse, List.map_map] at hc
      simpa using hc
    rw [hmeta]
    have hfix := hKfix
    simp only [healthFixedCols, List.mem_cons, List.not_mem_nil, or_false,
      not_or] at hfix
    rw [Option.none_or]
    rw [lookup_cons_ne _ _ hfix.1, lookup_cons_ne _ _ hfix.2.1,
      lookup_cons_ne _ _ hfix.2.2.1, lookup_cons_ne _ _ hfix.2.2.2]
    rfl
  · intro files cols rows hok
    rw [processGpxFiles] at hok
    cases hq : files.isEmpty
    · simp only [hq, Bool.false_eq_true, if_false] at hok
      cases hfd : gpxFinalData files with
      | error e =>
        rw [hfd] at hok
        cases hok
      | ok ds2 =>
        rw [hfd] at hok
        have h2 := Except.ok.inj hok
        injection h2 with hcols hrows
        have hpres : ds2.map dkeys = (gpxAllData files).map dkeys ∧
            ∀ K, K ≠ "time" →
              ds2.map (List.lookup K) = (gpxAllData files).map (List.lookup K) := by
          have hfd2 : (if "time" ∈ pandasColumns (gpxAllData files)
              then convertTimes (gpxAllData files)
              else Except.ok (gpxAllData files)) = Except.ok ds2 := hfd
          by_cases ht : "time" ∈ pandasColumns (gpxAllData files)
          · rw [if_pos ht] at hfd2
            exact convertTimes_ok_preserves hfd2
          · rw [if_neg ht] at hfd2
            obtain rfl : gpxAllData files = ds2 := Except.ok.inj hfd2
            exact ⟨rfl, fun K _ => rfl⟩
        exact ⟨ds2, rfl, by rw [← hrows, ← hcols], hpres.1, hpres.2⟩
    · simp [hq] at hok
  · intro d K hK
    rw [lookup_eq_none_of_not_mem hK]
    rfl
  · intro r K hmem huniq
    unfold rowDict
    rw [lookup_dinsertList]
    have hlook : List.lookup K
        ((r.metadata.map (fun p => (p.1, some p.2))).reverse) = some (some "") := by
      apply lookup_of_mem_unique
      · rw [List.mem_reverse, List.mem_map]
        exact ⟨(K, ""), hmem, rfl⟩
      · intro v hv
        rw [List.mem_reverse, List.mem_map] at hv
        obtain ⟨p, hp, hpv⟩ := hv
        have h1 : p.1 = K := congrArg Prod.fst hpv
        have h2 : some p.2 = v := congrArg Prod.snd hpv
        have hpmem : (K, p.2) ∈ r.metadata := by
          rw [← h1]
          simpa using hp
        have h3 : p.2 = "" := huniq p.2 hpmem
        rw [← h2, h3]
    rw [hlook]
    rfl

/-- Witness for C4 at concrete records: an absent key is null in both
pipelines (the GPX rows being the projection of the time-converted dicts),
a present-but-empty key is the empty-string cell. -/
theorem C4_witness :
    List.lookup "HKBar" (rowDict emptyMetaRec) = none ∧
    (∃ ds2, gpxFinalData [fileHr] = Except.ok ds2 ∧
      [[PyVal.pStr "a.gpx", PyVal.pFloat "1.0", PyVal.pFloat "2.0",
        PyVal.pNone, PyVal.pNone, PyVal.pFloat "120"]] = ds2.map
          (fun d => (gpxFixedColsList ++ ["hr"]).map
            (fun c => (List.lookup c d).getD PyVal.pNone)) ∧
      ds2.map dkeys = (gpxAllData [fileHr]).map dkeys ∧
      ∀ K, K ≠ "time" →
        ds2.map (List.lookup K) = (gpxAllData [fileHr]).map (List.lookup K)) ∧
    (List.lookup "cad" [("hr", PyVal.pFloat "120")]).getD PyVal.pNone = PyVal.pNone ∧
    List.lookup "HKFoo" (rowDict emptyMetaRec) = some (some "") := by
  refine ⟨?_, ?_, ?_, ?_⟩
  · exact C4_amended_null_preservation.1 emptyMetaRec "HKBar" (by decide) (by decide)
  · exact C4_amended_null_preservation.2.1 [fileHr]
      (gpxFixedColsList ++ ["hr"])
      [[PyVal.pStr "a.gpx", PyVal.pFloat "1.0", PyVal.pFloat "2.0",
        PyVal.pNone, PyVal.pNone, PyVal.pFloat "120"]] (by decide)
  · exact C4_amended_null_preservation.2.2.1 [("hr", PyVal.pFloat "120")] "cad" (by decide)
  · refine C4_amended_null_preservation.2.2.2 emptyMetaRec "HKFoo" (by decide) ?_
    intro v hv
    simp only [emptyMetaRec, List.mem_singleton, Prod.mk.injEq] at hv
    exact hv.2

/-! ### Strategy-comparison lemmas -/

/-- Under the well-formedness assumptions, the per-record dict is just the
fixed pairs followed by the dynamic pairs. -/
lemma recDict_eq_append {V : Type} (fixedCols : List String) (r : DRec V)
    (hfnd : fixedCols.Nodup) (hlen : r.fixedVals.length = fixedCols.length)
    (hdnd : (r.dyn.map Prod.fst).Nodup)
    (hdisj : ∀ k ∈ r.dyn.map Prod.fst, k ∉ fixedCols) :
    recDict fixedCols r = fixedCols.zip r.fixedVals ++ r.dyn := by
  unfold recDict
  rw [dinsertList_eq_append]
  · simp
  · rw [List.map_append, List.map_fst_zip _ _ hlen.ge]
    rw [List.nodup_append]
    exact ⟨hfnd, hdnd, fun a ha ha2 => hdisj a ha2 ha⟩
  · intro k _
    simp [dkeys]

/-- Under the well-formedness assumptions, the dict keys are the fixed columns
followed by the dynamic keys. -/
lemma dkeys_recDict {V : Type} (fixedCols : List String) (r : DRec V)
    (hfnd : fixedCols.Nodup) (hlen : r.fixedVals.length = fixedCols.length)
    (hdnd : (r.dyn.map Prod.fst).Nodup)
    (hdisj : ∀ k ∈ r.dyn.map Prod.fst, k ∉ fixedCols) :
    dkeys (recDict fixedCols r) = fixedCols ++ r.dyn.map Prod.fst := by
  rw [recDict_eq_append fixedCols r hfnd hlen hdnd hdisj]
  unfold dkeys
  rw [List.map_append, List.map_fst_zip _ _ hlen.ge]

/-- The materialize header is nodup and contains exactly the fixed columns
plus the observed dynamic keys (the corpus being nonempty). -/
lemma materialize_header_spec {V : Type} (fixedCols : List String)
    (recs : List (DRec V)) (hne : recs ≠ []) (hfnd : fixedCols.Nodup)
    (hlen : ∀ r ∈ recs, r.fixedVals.length = fixedCols.length)
    (hdnd : ∀ r ∈ recs, (r.dyn.map Prod.fst).Nodup)
    (hdisj : ∀ r ∈ recs, ∀ k ∈ r.dyn.map Prod.fst, k ∉ fixedCols) :
    (materializeOut fixedCols recs).1.Nodup ∧
    ∀ x, (x ∈ (materializeOut fixedCols recs).1 ↔
      x ∈ fixedCols ∨ ∃ r ∈ recs, x ∈ r.dyn.map Prod.fst) := by
  constructor
  · exact nodup_addNew_foldl recs [] List.nodup_nil
  · intro x
    have hm : x ∈ (materializeOut fixedCols recs).1 ↔
        x ∈ ([] : List String) ∨ ∃ r ∈ recs, x ∈ dkeys (recDict fixedCols r) :=
      mem_addNew_foldl recs []
    rw [hm]
    simp only [List.not_mem_nil, false_or]
    constructor
    · rintro ⟨r, hr, hx⟩
      rw [dkeys_recDict fixedCols r hfnd (hlen r hr) (hdnd r hr) (hdisj r hr)] at hx
      rcases List.mem_append.mp hx with hx | hx
      · exact Or.inl hx
      · exact Or.inr ⟨r, hr, hx⟩
    · rintro (hx | ⟨r, hr, hx⟩)
      · cases recs with
        | nil => exact absurd rfl hne
        | cons r0 rest =>
          refine ⟨r0, List.mem_cons_self _ _, ?_⟩
          rw [dkeys_recDict fixedCols r0 hfnd (hlen r0 (List.mem_cons_self _ _))
            (hdnd r0 (List.mem_cons_self _ _)) (hdisj r0 (List.mem_cons_self _ _))]
          exact List.mem_append.mpr (Or.inl hx)
      · refine ⟨r, hr, ?_⟩
        rw [dkeys_recDict fixedCols r hfnd (hlen r hr) (hdnd r hr) (hdisj r hr)]
        exact List.mem_append.mpr (Or.inr hx)

/-- The streaming header is nodup and contains exactly the fixed columns plus
the observed dynamic keys. -/
lemma streaming_header_spec {V : Type} (fixedCols : List String)
    (recs : List (DRec V)) (hfnd : fixedCols.Nodup)
    (hdisj : ∀ r ∈ recs, ∀ k ∈ r.dyn.map Prod.fst, k ∉ fixedCols) :
    (streamingOut fixedCols recs).1.Nodup ∧
    ∀ x, (x ∈ (streamingOut fixedCols recs).1 ↔
      x ∈ fixedCols ∨ ∃ r ∈ recs, x ∈ r.dyn.map Prod.fst) := by
  have hmemS : ∀ x, x ∈ pySorted
      (recs.foldl (fun acc r => addNew acc (r.dyn.map Prod.fst)) []) ↔
      ∃ r ∈ recs, x ∈ r.dyn.map Prod.fst := by
    intro x
    rw [mem_pySorted]
    rw [@mem_addNew_foldl (DRec V) (fun r => r.dyn.map Prod.fst) x recs []]
    simp
  constructor
  · show (fixedCols ++ pySorted _).Nodup
    rw [List.nodup_append]
    refine ⟨hfnd, pySorted_nodup (nodup_addNew_foldl recs [] List.nodup_nil), ?_⟩
    intro a ha ha2
    obtain ⟨r, hr, hx⟩ := (hmemS a).mp ha2
    exact hdisj r hr a hx ha
  · intro x
    show x ∈ fixedCols ++ pySorted _ ↔ _
    rw [List.mem_append, hmemS]

/-- Looking up a column in a header zipped with its projection recovers the
projection at that column. -/
lemma lookup_zip_map {V : Type} (f : String → Option V) :
    ∀ (H : List String) (c : String),
    List.lookup c (H.zip (H.map f)) = if c ∈ H then some (f c) else none := by
  intro H
  induction H with
  | nil => intro c; simp
  | cons a t ih =>
    intro c
    rw [show (a :: t).zip ((a :: t).map f) = (a, f a) :: t.zip (t.map f) from rfl]
    by_cases hc : c = a
    · subst hc
      rw [lookup_cons_same]
      simp
    · rw [lookup_cons_ne _ _ hc, ih]
      by_cases ht : c ∈ t <;> simp [ht, hc]

/-- Claim C1 counterexample: on the same single-record corpus whose dynamic
keys appear in the order `hr`, `cad`, materialize-then-flatten and two-pass
streaming produce different headers (first-appearance versus sorted), hence
different outputs. -/
theorem C1_counterexample :
    (materializeOut ["lat", "lon"] [dRecHrCad]).1 = ["lat", "lon", "hr", "cad"] ∧
    (streamingOut ["lat", "lon"] [dRecHrCad]).1 = ["lat", "lon", "cad", "hr"] ∧
    materializeOut ["lat", "lon"] [dRecHrCad] ≠ streamingOut ["lat", "lon"] [dRecHrCad] := by
  decide

/-- Claim C1 (amended): on a nonempty well-formed corpus the two strategies
emit one row per record in source order and agree cell-by-cell under each
column name, and their headers contain the same columns; but materialize
orders dynamic columns by first appearance while streaming sorts them, so the
outputs agree only up to that column permutation (and verbatim exactly when
first-appearance order is already sorted). -/
theorem C1_amended_strategy_agreement {V : Type} (fixedCols : List String)
    (recs : List (DRec V)) (hne : recs ≠ []) (hfnd : fixedCols.Nodup)
    (hlen : ∀ r ∈ recs, r.fixedVals.length = fixedCols.length)
    (hdnd : ∀ r ∈ recs, (r.dyn.map Prod.fst).Nodup)
    (hdisj : ∀ r ∈ recs, ∀ k ∈ r.dyn.map Prod.fst, k ∉ fixedCols) :
    (materializeOut fixedCols recs).1.Perm (streamingOut fixedCols recs).1 ∧
    (materializeOut fixedCols recs).2.length = (streamingOut fixedCols recs).2.length ∧
    ∀ (i : Nat) (c : String),
      ((materializeOut fixedCols recs).2[i]?).map
        (fun row => List.lookup c ((materializeOut fixedCols recs).1.zip row)) =
      ((streamingOut fixedCols recs).2[i]?).map
        (fun row => List.lookup c ((streamingOut fixedCols recs).1.zip row)) := by
  obtain ⟨hmnd, hmmem⟩ :=
    materialize_header_spec fixedCols recs hne hfnd hlen hdnd hdisj
  obtain ⟨hsnd, hsmem⟩ := streaming_header_spec fixedCols recs hfnd hdisj
  have hperm : (materializeOut fixedCols recs).1.Perm (streamingOut fixedCols recs).1 := by
    apply List.perm_of_nodup_nodup_toFinset_eq hmnd hsnd
    ext x
    rw [List.mem_toFinset, List.mem_toFinset, hmmem, hsmem]
  have hm2 : (materializeOut fixedCols recs).2 = recs.map
      (fun r => (materializeOut fixedCols recs).1.map
        (fun col => List.lookup col (recDict fixedCols r))) := rfl
  have hs2 : (streamingOut fixedCols recs).2 = recs.map
      (fun r => (streamingOut fixedCols recs).1.map
        (fun col => List.lookup col (recDict fixedCols r))) := rfl
  refine ⟨hperm, ?_, ?_⟩
  · rw [hm2, hs2]
    simp
  · intro i c
    rw [hm2, hs2, List.getElem?_map, List.getElem?_map]
    cases hri : recs[i]? with
    | none => rfl
    | some r =>
      show some (List.lookup c ((materializeOut fixedCols recs).1.zip
          ((materializeOut fixedCols recs).1.map
            (fun col => List.lookup col (recDict fixedCols r))))) =
        some (List.lookup c ((streamingOut fixedCols recs).1.zip
          ((streamingOut fixedCols recs).1.map
            (fun col => List.lookup col (recDict fixedCols r)))))
      rw [lookup_zip_map, lookup_zip_map]
      by_cases hc : c ∈ (materializeOut fixedCols recs).1
      · rw [if_pos hc, if_pos (hperm.mem_iff.mp hc)]
      · rw [if_neg hc, if_neg (fun h2 => hc (hperm.mem_iff.mpr h2))]

/-- Witness for C1 at the concrete one-record corpus. -/
theorem C1_witness :
    (["lat", "lon"] : List String).Nodup ∧ ([dRecHrCad] : List (DRec String)) ≠ [] ∧
    ((materializeOut ["lat", "lon"] [dRecHrCad]).1.Perm
        (streamingOut ["lat", "lon"] [dRecHrCad]).1 ∧
      (materializeOut ["lat", "lon"] [dRecHrCad]).2.length =
        (streamingOut ["lat", "lon"] [dRecHrCad]).2.length ∧
      ∀ (i : Nat) (c : String),
        ((materializeOut ["lat", "lon"] [dRecHrCad]).2[i]?).map
          (fun row => List.lookup c ((materializeOut ["lat", "lon"] [dRecHrCad]).1.zip row)) =
        ((streamingOut ["lat", "lon"] [dRecHrCad]).2[i]?).map
          (fun row => List.lookup c ((streamingOut ["lat", "lon"] [dRecHrCad]).1.zip row))) :=
  ⟨by decide, by decide,
    C1_amended_strategy_agreement ["lat", "lon"] [dRecHrCad] (by decide) (by decide)
      (by decide) (by decide) (by decide)⟩
